import Mathlib

/-!
Verification of the TransInferSim STL monitoring and design-space-exploration
engine against its natural-language specification.

The Lean definitions below are a shallow embedding of the Python sources under
`analyzer/stl/`.  Python floats are modelled as rationals (`ℚ`); the IEEE
infinities that the code manipulates explicitly (`float('inf')`,
`float('-inf')`) are modelled with `WithTop`/`WithBot`.  Python functions that
can raise are modelled as `Option`/`Except` valued functions.  External
collaborators (the cycle-accurate simulator and the `rtamt` temporal-logic
backend) are modelled as oracle parameters, exactly as the specification
designates them as external.
-/

namespace TransInferSim

/-! ## Robustness core — `analyzer/stl/core/robustness.py` -/

/-- Embedding of `robustness_distance(value, threshold, comparison)`.
For `<`/`<=` the distance is `threshold - value`; for `>`/`>=` it is
`value - threshold`; any other operator raises `ValueError` (modelled as
`none`). -/
def robustness_distance (value threshold : ℚ) (comparison : String) : Option ℚ :=
  if comparison = "<" ∨ comparison = "<=" then
    some (threshold - value)
  else if comparison = ">" ∨ comparison = ">=" then
    some (value - threshold)
  else
    none

/-- Embedding of `temporal_robustness_always(signal, threshold, comparison,
time_interval)`: filter the samples whose timestamp lies in the closed window
(when a window is given), return `0.0` if no sample remains, otherwise the
minimum of the per-sample distances. -/
def temporal_robustness_always (signal : List (ℚ × ℚ)) (threshold : ℚ)
    (comparison : String) (time_interval : Option (ℚ × ℚ)) : Option ℚ :=
  let filtered_signal :=
    match time_interval with
    | some se => signal.filter (fun (tv : ℚ × ℚ) => decide (se.1 ≤ tv.1) && decide (tv.1 ≤ se.2))
    | none => signal
  if filtered_signal.isEmpty then
    some 0
  else do
    let robustness_values ← filtered_signal.mapM
      (fun (tv : ℚ × ℚ) => robustness_distance tv.2 threshold comparison)
    robustness_values.min?

/-- Embedding of `temporal_robustness_eventually`: same sample filtering as
`temporal_robustness_always`, but the maximum of the distances. -/
def temporal_robustness_eventually (signal : List (ℚ × ℚ)) (threshold : ℚ)
    (comparison : String) (time_interval : Option (ℚ × ℚ)) : Option ℚ :=
  let filtered_signal :=
    match time_interval with
    | some se => signal.filter (fun (tv : ℚ × ℚ) => decide (se.1 ≤ tv.1) && decide (tv.1 ≤ se.2))
    | none => signal
  if filtered_signal.isEmpty then
    some 0
  else do
    let robustness_values ← filtered_signal.mapM
      (fun (tv : ℚ × ℚ) => robustness_distance tv.2 threshold comparison)
    robustness_values.max?

/-! ## Signal extractor — `analyzer/stl/signals/signal_extractor.py` -/

/-- One entry of the `compute_stats` list of the statistics record
(see the stats-record schema in the spec).  A missing key in the Python dict
defaults to `0`, so the fields hold the post-default values. -/
structure CompStat where
  name : String
  utilization : ℚ
  throughput : ℚ
  idle_cycles : ℕ
  computational_cycles : ℕ
deriving DecidableEq

/-- The part of the statistics record read by `_extract_compute_signals`:
`global_cycles` (default `1`) and the ordered `compute_stats` list.  The other
keys of the record are not referenced by the functions verified here. -/
structure StatsRecord where
  global_cycles : ℕ
  compute_stats : List CompStat
deriving DecidableEq

/-- Embedding of `SignalExtractor._scalar_to_signal(value, duration)`:
broadcast a scalar into a constant signal with one sample per cycle. -/
def scalar_to_signal (value : ℚ) (duration : ℕ) : List (ℚ × ℚ) :=
  (List.range duration).map (fun t => ((t : ℚ), value))

/-- The idle-ratio computation inside `SignalExtractor._extract_compute_signals`:
`idle_cycles / total_cycles` when `total_cycles > 0`, else `0`
(`total_cycles = idle_cycles + computational_cycles`). -/
def idle_ratio_q (cs : CompStat) : ℚ :=
  let total_cycles := cs.idle_cycles + cs.computational_cycles
  if 0 < total_cycles then (cs.idle_cycles : ℚ) / (total_cycles : ℚ) else 0

/-- Embedding of `SignalExtractor._extract_compute_signals(stats_dict)`.
The Python dict of signals is modelled as the association list of
`(name, signal)` pairs in insertion order. -/
def extract_compute_signals (stats : StatsRecord) : List (String × List (ℚ × ℚ)) :=
  stats.compute_stats.foldl
    (fun signals cs =>
      signals ++
        [ (cs.name ++ "_utilization", scalar_to_signal cs.utilization stats.global_cycles)
        , (cs.name ++ "_throughput", scalar_to_signal cs.throughput stats.global_cycles)
        , (cs.name ++ "_idle_ratio", scalar_to_signal (idle_ratio_q cs) stats.global_cycles) ])
    []

/-! ## Specification — `analyzer/stl/core/specification.py` -/

/-- The state stored by `STLSpecification.__init__`.  The opaque `rtamt`
backend object `_spec` is omitted (external collaborator); `parsed` models
`_parsed`.  `time_bounds` holds rationals extended with `+∞` for the default
upper bound `float('inf')`. -/
structure STLSpecification where
  formula : String
  signal_names : List String
  time_bounds : ℚ × WithTop ℚ
  name : String
  parsed : Bool
deriving DecidableEq

/-- Embedding of `STLSpecification.__init__`.  The constructor performs no
validation: every argument is stored as given.  `time_bounds` defaults to
`(0, float('inf'))` when `None` is passed (a given pair is always truthy in
Python); `name` defaults to the formula text when `None` or the empty string
is passed (an empty string is falsy in Python); `_parsed` starts `False`. -/
def STLSpecification.init (formula : String) (signal_names : List String)
    (time_bounds : Option (ℚ × ℚ)) (name : Option String) : STLSpecification :=
  { formula := formula
  , signal_names := signal_names
  , time_bounds :=
      match time_bounds with
      | some tb => (tb.1, (tb.2 : WithTop ℚ))
      | none => (0, ⊤)
  , name :=
      match name with
      | some n => if n = "" then formula else n
      | none => formula
  , parsed := false }

/-! ## Multi-objective analysis — `analyzer/stl/dse/pareto_frontier.py` -/

/-- A metrics record (`Dict[str, float]` in the source), modelled by its
lookup function: `p obj` is `some v` when the key is present. -/
abbrev Point := String → Option ℚ

/-- Rationals extended with `-∞` and `+∞`, the value space of
`point.get(obj, float('inf') / float('-inf'))`. -/
abbrev ExtQ := WithBot (WithTop ℚ)

/-- Embedding of `point.get(obj, float('inf') if is_minimize else float('-inf'))`
inside `ParetoFrontier.is_dominated`: a missing metric defaults to the worst
value for its direction. -/
def getVal (p : Point) (obj : String) (is_minimize : Bool) : ExtQ :=
  match p obj with
  | some v => ((v : WithTop ℚ) : ExtQ)
  | none => if is_minimize then ((⊤ : WithTop ℚ) : ExtQ) else ⊥

namespace ParetoFrontier

/-- The per-objective better-or-equal test of `is_dominated`: in the
minimization branch `val2 < val1` or `val2 == val1`, in the maximization
branch `val2 > val1` or `val2 == val1`. -/
def betterOrEqual (is_minimize : Bool) (val1 val2 : ExtQ) : Bool :=
  if is_minimize then decide (val2 < val1) || decide (val2 = val1)
  else decide (val1 < val2) || decide (val2 = val1)

/-- The per-objective strictly-better test of `is_dominated`. -/
def strictlyBetter (is_minimize : Bool) (val1 val2 : ExtQ) : Bool :=
  if is_minimize then decide (val2 < val1) else decide (val1 < val2)

/-- Directional non-strict comparison used in statements about `is_dominated`:
`dirLE m a b` says `a` is at least as good as `b` for direction `m`
(`minimize = true` means smaller wins). -/
def dirLE (is_minimize : Bool) (a b : ExtQ) : Prop :=
  if is_minimize then a ≤ b else b ≤ a

/-- Directional strict comparison: `dirLT m a b` says `a` is strictly better
than `b` for direction `m`. -/
def dirLT (is_minimize : Bool) (a b : ExtQ) : Prop :=
  if is_minimize then a < b else b < a

/-- Embedding of `ParetoFrontier.is_dominated(point1, point2, objectives,
minimize)`: point1 is dominated iff point2 is better-or-equal on all listed
objectives (the loop runs over `zip(objectives, minimize)` and the count is
compared with `len(objectives)`) and strictly better on at least one. -/
def is_dominated (point1 point2 : Point) (objectives : List String)
    (minimize : List Bool) : Bool :=
  let pairs := objectives.zip minimize
  let better_or_equal_count := pairs.countP
    (fun om => betterOrEqual om.2 (getVal point1 om.1 om.2) (getVal point2 om.1 om.2))
  let strictly_better_count := pairs.countP
    (fun om => strictlyBetter om.2 (getVal point1 om.1 om.2) (getVal point2 om.1 om.2))
  decide (better_or_equal_count = objectives.length) && decide (0 < strictly_better_count)

/-- Embedding of `ParetoFrontier.compute_pareto_frontier`: a configuration at
position `i` survives iff no point at another position `j ≠ i` dominates its
point.  The `extract_metrics` argument covers both source code paths (the
`None` path passes the configurations themselves as points, i.e. `α = Point`
and `extract_metrics = id`). -/
def compute_pareto_frontier {α : Type} (configurations : List α)
    (objectives : List String) (minimize : List Bool)
    (extract_metrics : α → Point) : List α :=
  let pairs := (configurations.zip (configurations.map extract_metrics)).enum
  (pairs.filter (fun icp =>
      ! pairs.any (fun jcp =>
          decide (icp.1 ≠ jcp.1) && is_dominated icp.2.2 jcp.2.2 objectives minimize))).map
    (fun icp => icp.2.1)

/-- Embedding of `ParetoFrontier.rank_by_pareto_layers`: repeatedly peel off
the Pareto frontier of what remains (`c not in pareto_layer` is Python `==`
membership, modelled with `DecidableEq`); stop when the remaining list, or the
computed layer, is empty. -/
def rank_by_pareto_layers {α : Type} [DecidableEq α] (configurations : List α)
    (objectives : List String) (minimize : List Bool)
    (extract_metrics : α → Point) : List (List α) :=
  if configurations.isEmpty then []
  else
    let pareto_layer := compute_pareto_frontier configurations objectives minimize extract_metrics
    if h : pareto_layer.isEmpty then []
    else
      pareto_layer ::
        rank_by_pareto_layers (configurations.filter (fun c => ! pareto_layer.contains c))
          objectives minimize extract_metrics
termination_by configurations.length
decreasing_by
  have hne : pareto_layer ≠ [] := by
    intro hcon
    exact h (by simp [hcon])
  obtain ⟨x, hxL⟩ := List.exists_mem_of_ne_nil pareto_layer hne
  have hxconf : x ∈ configurations := by
    have hx2 := hxL
    simp only [pareto_layer, compute_pareto_frontier, List.mem_map, List.mem_filter] at hx2
    obtain ⟨⟨i, c, pt⟩, ⟨hmem, -⟩, hcx⟩ := hx2
    have hget := List.mk_mem_enum_iff_getElem?.mp hmem
    have hzip : (c, pt) ∈ configurations.zip (configurations.map extract_metrics) :=
      List.getElem?_mem hget
    have hc := (List.of_mem_zip hzip).1
    simp only at hcx
    rwa [hcx] at hc
  have hfx : (! pareto_layer.contains x) = false := by
    simp [List.contains, List.elem_eq_mem, hxL]
  have hlen : ∀ (l : List α), x ∈ l →
      (l.filter (fun c => ! pareto_layer.contains c)).length < l.length := by
    intro l hl
    induction l with
    | nil => cases hl
    | cons a t ih =>
      rcases List.mem_cons.mp hl with heq | ht
      · subst heq
        rw [List.filter_cons, hfx]
        simp only [Bool.false_eq_true, if_false]
        exact Nat.lt_succ_of_le (List.length_filter_le _ t)
      · rw [List.filter_cons]
        cases hb : (! pareto_layer.contains a) with
        | true =>
          simp only [if_true, List.length_cons]
          exact Nat.succ_lt_succ (ih ht)
        | false =>
          simp only [Bool.false_eq_true, if_false]
          exact Nat.lt_succ_of_lt (ih ht)
  exact hlen configurations hxconf

end ParetoFrontier

/-! ## Monitors and DSE engine — `analyzer/stl/monitors/*.py`,
`analyzer/stl/dse/constraint_checker.py`, `analyzer/stl/dse/robustness_ranker.py`

The engine is polymorphic in the opaque hardware-configuration type `κ`, the
statistics-record type `Stats` and the extracted-signal-map type `SignalMap`;
the external collaborators are oracle parameters: `sim` (the
analyzer/simulator, which may raise), `extract_signals` (signal extraction,
wrapped in `try` by the offline monitor) and `evalSpec` (per-specification
`rtamt` evaluation, which may raise). -/

/-- One entry of the result list of `OfflineSTLMonitor.evaluate` (the
`spec_object` back-reference is omitted). -/
structure SpecResult where
  specification : String
  name : String
  robustness : ℚ
  satisfied : Bool
  signals_used : List String
deriving DecidableEq

/-- The `assert specifications` guard of `BaseSTLMonitor.__init__`: an empty
specification list raises `AssertionError`. -/
def BaseSTLMonitor.checkSpecs (specifications : List STLSpecification) : Except String Unit :=
  if specifications.isEmpty then
    .error "At least one specification must be provided"
  else
    .ok ()

/-- Embedding of `OfflineSTLMonitor.evaluate(stats_dict)`: extract the signals
once (re-raising on failure), then evaluate every specification in order,
recording formula, name, robustness, `satisfied = robustness >= 0` and the
signals used; any per-specification failure is re-raised. -/
def OfflineSTLMonitor.evaluate {Stats SignalMap : Type}
    (specifications : List STLSpecification)
    (extract_signals : Stats → Except String SignalMap)
    (evalSpec : STLSpecification → SignalMap → Except String ℚ)
    (stats : Stats) : Except String (List SpecResult) := do
  let all_signals ← extract_signals stats
  specifications.mapM (fun spec => do
    let robustness ← evalSpec spec all_signals
    pure { specification := spec.formula
         , name := spec.name
         , robustness := robustness
         , satisfied := decide (0 ≤ robustness)
         , signals_used := spec.signal_names })

/-- One entry of the result list of `ConstraintBasedDSE.explore_design_space`.
The success dict and the failure dict of the source have different key sets;
fields present only on one path are `Option`-valued.  `min_robustness` lives
in `WithBot ℚ` so that the failure sentinel `float('-inf')` is `⊥`. -/
structure DSEResult (κ Stats : Type) where
  config : κ
  config_name : String
  stats : Option Stats
  stl_results : Option (List SpecResult)
  min_robustness : WithBot ℚ
  avg_robustness : Option ℚ
  satisfies_all : Bool
  num_violations : Option ℕ
  error : Option String
deriving DecidableEq

namespace ConstraintBasedDSE

/-- The body of the `try` block of `explore_design_space` for one
configuration: run the simulation, construct the monitor (whose constructor
asserts the constraint list is non-empty) and evaluate it. -/
def stepConfig {κ Stats SignalMap : Type} (constraints : List STLSpecification)
    (sim : κ → Except String Stats)
    (extract_signals : Stats → Except String SignalMap)
    (evalSpec : STLSpecification → SignalMap → Except String ℚ)
    (config : κ) : Except String (Stats × List SpecResult) := do
  let stats ← sim config
  let _ ← BaseSTLMonitor.checkSpecs constraints
  let stl_results ← OfflineSTLMonitor.evaluate constraints extract_signals evalSpec stats
  pure (stats, stl_results)

/-- One iteration of the `explore_design_space` loop: on success, aggregate
`min_robustness` (`0` if the per-spec list is empty), `avg_robustness`,
`satisfies_all` and `num_violations`; on any exception, the sentinel result
with `min_robustness = float('-inf')`, `satisfies_all = False` and the
captured error text. -/
def processConfig {κ Stats SignalMap : Type} (constraints : List STLSpecification)
    (sim : κ → Except String Stats)
    (extract_signals : Stats → Except String SignalMap)
    (evalSpec : STLSpecification → SignalMap → Except String ℚ)
    (config_name : κ → String) (config : κ) : DSEResult κ Stats :=
  match stepConfig constraints sim extract_signals evalSpec config with
  | .ok (stats, stl_results) =>
    let robustness_values : List ℚ := stl_results.map (fun r => r.robustness)
    { config := config
    , config_name := config_name config
    , stats := some stats
    , stl_results := some stl_results
    , min_robustness :=
        match robustness_values.min? with
        | some m => (m : WithBot ℚ)
        | none => (0 : WithBot ℚ)
    , avg_robustness :=
        some (if robustness_values.isEmpty then (0 : ℚ)
              else robustness_values.sum / (robustness_values.length : ℚ))
    , satisfies_all := stl_results.all (fun r => r.satisfied)
    , num_violations := some (stl_results.countP (fun r => ! r.satisfied))
    , error := none }
  | .error e =>
    { config := config
    , config_name := config_name config
    , stats := none
    , stl_results := none
    , min_robustness := ⊥
    , avg_robustness := none
    , satisfies_all := false
    , num_violations := none
    , error := some e }

/-- Embedding of `ConstraintBasedDSE.explore_design_space(hw_configs)`: process
every configuration (never letting an exception escape), then stable-sort the
results by `min_robustness` descending (`list.sort(key=..., reverse=True)`). -/
def explore_design_space {κ Stats SignalMap : Type} (constraints : List STLSpecification)
    (sim : κ → Except String Stats)
    (extract_signals : Stats → Except String SignalMap)
    (evalSpec : STLSpecification → SignalMap → Except String ℚ)
    (config_name : κ → String) (hw_configs : List κ) : List (DSEResult κ Stats) :=
  (hw_configs.map (processConfig constraints sim extract_signals evalSpec config_name)).mergeSort
    (fun a b => decide (b.min_robustness ≤ a.min_robustness))

end ConstraintBasedDSE

namespace RobustnessRanker

/-- Embedding of `RobustnessRanker.rank_by_min_robustness(results, ascending)`:
Python `sorted(results, key=..., reverse=not ascending)` is a stable sort; with
the default `ascending=False` larger `min_robustness` comes first and equal
keys keep their input order.  Every `DSEResult` carries the `min_robustness`
key, so the `.get(..., float('-inf'))` default is never taken. -/
def rank_by_min_robustness {κ Stats : Type} (results : List (DSEResult κ Stats))
    (ascending : Bool := false) : List (DSEResult κ Stats) :=
  results.mergeSort
    (fun a b =>
      if ascending then decide (a.min_robustness ≤ b.min_robustness)
      else decide (b.min_robustness ≤ a.min_robustness))

end RobustnessRanker

/-- Concrete oracle instances and the failure sentinel used in concrete
instantiations: a simulator that always succeeds, identity signal extraction,
a constant-`0` specification evaluator and a constant configuration name. -/
def simOkUnit : Unit → Except String Unit := fun _ => Except.ok ()

/-- Identity signal extraction oracle over a unit statistics record. -/
def extractIdUnit : Unit → Except String Unit := fun s => Except.ok s

/-- Specification-evaluation oracle returning robustness `0`. -/
def evalSpecZero : STLSpecification → Unit → Except String ℚ := fun _ _ => Except.ok 0

/-- Constant configuration-name function. -/
def nameCfg : Unit → String := fun _ => "cfg"

/-- The failure sentinel produced for a unit configuration when the monitor
constructor assert fires. -/
def sentinelUnit : DSEResult Unit Unit :=
  { config := (), config_name := "cfg", stats := none, stl_results := none
  , min_robustness := ⊥, avg_robustness := none, satisfies_all := false
  , num_violations := none
  , error := some "At least one specification must be provided" }

/-! ## Theorems -/

/-- For rational lists, the minimum is at most the maximum whenever both exist. -/
theorem list_min?_le_max? {l : List ℚ} {a b : ℚ}
    (ha : l.min? = some a) (hb : l.max? = some b) : a ≤ b := by
  have hbmem : b ∈ l := List.max?_mem (fun x y => max_choice x y) hb
  exact (List.le_min?_iff (fun x y z => le_min_iff) ha).mp (le_refl a) b hbmem

/-- The window-independent part of the comparison of `temporal_robustness_always`
and `temporal_robustness_eventually`: over the same filtered sample list, the
minimum of the distances is at most the maximum. -/
theorem always_le_eventually_core (fl : List (ℚ × ℚ)) (threshold : ℚ)
    (comparison : String) (a b : ℚ)
    (ha : (if fl.isEmpty then some (0 : ℚ) else do
        let robustness_values ← fl.mapM
          (fun (tv : ℚ × ℚ) => robustness_distance tv.2 threshold comparison)
        robustness_values.min?) = some a)
    (hb : (if fl.isEmpty then some (0 : ℚ) else do
        let robustness_values ← fl.mapM
          (fun (tv : ℚ × ℚ) => robustness_distance tv.2 threshold comparison)
        robustness_values.max?) = some b) :
    a ≤ b := by
  by_cases hemp : fl.isEmpty
  · rw [if_pos hemp] at ha hb
    cases ha; cases hb; exact le_refl 0
  · rw [if_neg hemp] at ha hb
    have ha2 : (fl.mapM
        (fun (tv : ℚ × ℚ) => robustness_distance tv.2 threshold comparison)).bind
        List.min? = some a := ha
    have hb2 : (fl.mapM
        (fun (tv : ℚ × ℚ) => robustness_distance tv.2 threshold comparison)).bind
        List.max? = some b := hb
    obtain ⟨vals, hvals, hmin⟩ := Option.bind_eq_some.mp ha2
    obtain ⟨vals2, hvals2, hmax⟩ := Option.bind_eq_some.mp hb2
    rw [hvals] at hvals2
    cases Option.some.inj hvals2
    exact list_min?_le_max? hmin hmax

/-- C8: for every signal, threshold, comparison operator and time window,
whenever both temporal robustness computations return a value, the `always`
robustness (the minimum of the per-sample distances over the windowed samples)
is at most the `eventually` robustness (the maximum over the same sample set). -/
theorem always_robustness_le_eventually_robustness
    (signal : List (ℚ × ℚ)) (threshold : ℚ) (comparison : String)
    (time_interval : Option (ℚ × ℚ)) (a b : ℚ)
    (ha : temporal_robustness_always signal threshold comparison time_interval = some a)
    (hb : temporal_robustness_eventually signal threshold comparison time_interval = some b) :
    a ≤ b := by
  cases time_interval with
  | none =>
    simp only [temporal_robustness_always] at ha
    simp only [temporal_robustness_eventually] at hb
    exact always_le_eventually_core signal threshold comparison a b ha hb
  | some se =>
    simp only [temporal_robustness_always] at ha
    simp only [temporal_robustness_eventually] at hb
    exact always_le_eventually_core
      (signal.filter (fun (tv : ℚ × ℚ) => decide (se.1 ≤ tv.1) && decide (tv.1 ≤ se.2)))
      threshold comparison a b ha hb

/-- C8 witness: a concrete single-sample signal on which both sides evaluate. -/
theorem always_robustness_le_eventually_robustness_witness : (-1 : ℚ) ≤ (-1 : ℚ) :=
  always_robustness_le_eventually_robustness [((0 : ℚ), (1 : ℚ))] 0 "<" none (-1) (-1)
    (by norm_num [temporal_robustness_always, robustness_distance, List.mapM, List.mapM.loop])
    (by norm_num [temporal_robustness_eventually, robustness_distance, List.mapM, List.mapM.loop])

/-- C10: when no sample timestamp falls inside the given window — in
particular for the empty signal — both `temporal_robustness_always` and
`temporal_robustness_eventually` return exactly `0.0`; the empty signal with
no window behaves the same way. -/
theorem temporal_robustness_empty_window_eq_zero :
    (∀ (signal : List (ℚ × ℚ)) (threshold : ℚ) (comparison : String) (s e : ℚ),
      (∀ tv ∈ signal, ¬(s ≤ tv.1 ∧ tv.1 ≤ e)) →
      temporal_robustness_always signal threshold comparison (some (s, e)) = some 0 ∧
      temporal_robustness_eventually signal threshold comparison (some (s, e)) = some 0) ∧
    (∀ (threshold : ℚ) (comparison : String) (time_interval : Option (ℚ × ℚ)),
      temporal_robustness_always [] threshold comparison time_interval = some 0 ∧
      temporal_robustness_eventually [] threshold comparison time_interval = some 0) := by
  constructor
  · intro signal threshold comparison s e hnone
    have hfe : signal.filter
        (fun (tv : ℚ × ℚ) => decide (s ≤ tv.1) && decide (tv.1 ≤ e)) = [] := by
      rw [List.filter_eq_nil_iff]
      intro tv htv
      have := hnone tv htv
      simp only [Bool.and_eq_true, decide_eq_true_iff]
      exact fun hc => this hc
    constructor
    · unfold temporal_robustness_always
      simp only [hfe, List.isEmpty_nil, if_true]
    · unfold temporal_robustness_eventually
      simp only [hfe, List.isEmpty_nil, if_true]
  · intro threshold comparison time_interval
    constructor
    · unfold temporal_robustness_always
      cases time_interval <;> simp
    · unfold temporal_robustness_eventually
      cases time_interval <;> simp

/-- Folding with list append equals the prepended accumulator followed by the
joined per-element blocks. -/
theorem foldl_append_blocks {β γ : Type} (g : β → List γ) :
    ∀ (l : List β) (acc : List γ),
      l.foldl (fun s cs => s ++ g cs) acc = acc ++ (l.map g).flatten := by
  intro l
  induction l with
  | nil => intro acc; simp
  | cons a t ih => intro acc; simp [ih]

/-- C9: for every compute-block record of a statistics record, the extracted
idle-ratio signal is present and constant, its value is
`idle_cycles / (idle_cycles + computational_cycles)` and is `0` when the
denominator is `0`; the extraction (a total function) never faults on a zero
denominator. -/
theorem extract_compute_signals_idle_ratio (stats : StatsRecord) (cs : CompStat)
    (hmem : cs ∈ stats.compute_stats) :
    (cs.name ++ "_idle_ratio", scalar_to_signal (idle_ratio_q cs) stats.global_cycles)
      ∈ extract_compute_signals stats
    ∧ idle_ratio_q cs =
        (if cs.idle_cycles + cs.computational_cycles = 0 then 0
         else (cs.idle_cycles : ℚ) / ((cs.idle_cycles : ℚ) + (cs.computational_cycles : ℚ)))
    ∧ ∀ tv ∈ scalar_to_signal (idle_ratio_q cs) stats.global_cycles,
        tv.2 = idle_ratio_q cs := by
  refine ⟨?_, ?_, ?_⟩
  · unfold extract_compute_signals
    rw [foldl_append_blocks]
    rw [List.nil_append, List.mem_flatten]
    refine ⟨_, List.mem_map_of_mem _ hmem, ?_⟩
    simp
  · unfold idle_ratio_q
    by_cases h : cs.idle_cycles + cs.computational_cycles = 0
    · simp [h]
    · have hpos : 0 < cs.idle_cycles + cs.computational_cycles := Nat.pos_of_ne_zero h
      rw [if_pos hpos, if_neg h]
      push_cast
      rfl
  · intro tv htv
    unfold scalar_to_signal at htv
    simp only [List.mem_map] at htv
    obtain ⟨t, -, rfl⟩ := htv
    rfl

/-- C9 witness: a one-block record with `idle_cycles = computational_cycles = 0`. -/
theorem extract_compute_signals_idle_ratio_witness :
    (⟨"pe", 0, 0, 0, 0⟩ : CompStat) ∈ (⟨1, [⟨"pe", 0, 0, 0, 0⟩]⟩ : StatsRecord).compute_stats
    ∧ idle_ratio_q ⟨"pe", 0, 0, 0, 0⟩ =
        (if (0 : ℕ) + 0 = 0 then (0 : ℚ)
         else ((0 : ℕ) : ℚ) / (((0 : ℕ) : ℚ) + ((0 : ℕ) : ℚ))) :=
  ⟨List.mem_singleton.mpr rfl,
   (extract_compute_signals_idle_ratio ⟨1, [⟨"pe", 0, 0, 0, 0⟩]⟩ ⟨"pe", 0, 0, 0, 0⟩
     (List.mem_singleton.mpr rfl)).2.1⟩

/-- C3 counterexample: `STLSpecification.__init__` performs no validation, so
constructing a specification from the empty formula and the empty signal-name
list succeeds and stores both empties unchanged — refuting the claim that such
a construction fails at construction time. -/
theorem stlspecification_init_accepts_empty :
    (STLSpecification.init "" [] none none).formula = ""
    ∧ (STLSpecification.init "" [] none none).signal_names = ([] : List String)
    ∧ (STLSpecification.init "" [] none none).time_bounds = (0, (⊤ : WithTop ℚ)) :=
  ⟨rfl, rfl, rfl⟩

/-- C3 amended: the constructor stores formula and signal names unvalidated
(empty values are accepted), the time bounds default to `(0, +∞)` exactly
when no bounds are given, and the name defaults to the formula text. -/
theorem stlspecification_init_fields (formula : String) (signal_names : List String)
    (time_bounds : Option (ℚ × ℚ)) (name : Option String) :
    (STLSpecification.init formula signal_names time_bounds name).formula = formula
    ∧ (STLSpecification.init formula signal_names time_bounds name).signal_names = signal_names
    ∧ (time_bounds = none →
        (STLSpecification.init formula signal_names time_bounds name).time_bounds
          = (0, (⊤ : WithTop ℚ)))
    ∧ (∀ a b : ℚ, time_bounds = some (a, b) →
        (STLSpecification.init formula signal_names time_bounds name).time_bounds
          = (a, (b : WithTop ℚ)))
    ∧ (name = none →
        (STLSpecification.init formula signal_names time_bounds name).name = formula) := by
  refine ⟨rfl, rfl, ?_, ?_, ?_⟩
  · intro h; subst h; rfl
  · intro a b h; subst h; rfl
  · intro h; subst h; rfl

/-- C3 amended witness: concrete construction with defaulted time bounds. -/
theorem stlspecification_init_fields_witness :
    (STLSpecification.init "always(latency < 1)" ["latency"] none none).time_bounds
      = (0, (⊤ : WithTop ℚ)) :=
  (stlspecification_init_fields "always(latency < 1)" ["latency"] none none).2.2.1 rfl

/-- C10 witness: a concrete signal whose only sample lies outside the window. -/
theorem temporal_robustness_empty_window_eq_zero_witness :
    temporal_robustness_always [((5 : ℚ), (1 : ℚ))] 0 "<" (some (0, 1)) = some 0 ∧
    temporal_robustness_eventually [((5 : ℚ), (1 : ℚ))] 0 "<" (some (0, 1)) = some 0 :=
  temporal_robustness_empty_window_eq_zero.1 [((5 : ℚ), (1 : ℚ))] 0 "<" 0 1
    (by intro tv htv; simp only [List.mem_singleton] at htv; subst htv; norm_num)

/-! ### Dominance lemmas -/

namespace ParetoFrontier

/-- The better-or-equal test is the directional non-strict comparison. -/
theorem betterOrEqual_eq_true_iff (m : Bool) (v1 v2 : ExtQ) :
    betterOrEqual m v1 v2 = true ↔ dirLE m v2 v1 := by
  cases m <;>
    simp [betterOrEqual, dirLE, le_iff_lt_or_eq] <;>
    constructor <;> rintro (h | h) <;> simp [h, eq_comm]

/-- The strictly-better test is the directional strict comparison. -/
theorem strictlyBetter_eq_true_iff (m : Bool) (v1 v2 : ExtQ) :
    strictlyBetter m v1 v2 = true ↔ dirLT m v2 v1 := by
  cases m <;> simp [strictlyBetter, dirLT]

/-- Characterization of `is_dominated`: the count conditions amount to
`len(objectives) ≤ len(minimize)` together with better-or-equal on every
zipped objective and strictly-better on at least one. -/
theorem is_dominated_eq_true_iff (p1 p2 : Point) (o : List String) (m : List Bool) :
    is_dominated p1 p2 o m = true ↔
      (o.length ≤ m.length
      ∧ (∀ om ∈ o.zip m, dirLE om.2 (getVal p2 om.1 om.2) (getVal p1 om.1 om.2))
      ∧ ∃ om ∈ o.zip m, dirLT om.2 (getVal p2 om.1 om.2) (getVal p1 om.1 om.2)) := by
  unfold is_dominated
  rw [Bool.and_eq_true, decide_eq_true_iff, decide_eq_true_iff]
  have hzip : (o.zip m).length = min o.length m.length := by
    rw [List.length_zip o m]
  constructor
  · rintro ⟨hcount, hpos⟩
    have hle : (o.zip m).countP
        (fun om => betterOrEqual om.2 (getVal p1 om.1 om.2) (getVal p2 om.1 om.2))
        ≤ (o.zip m).length := List.countP_le_length _
    have hmlen : o.length ≤ m.length := by omega
    have hcount2 : (o.zip m).countP
        (fun om => betterOrEqual om.2 (getVal p1 om.1 om.2) (getVal p2 om.1 om.2))
        = (o.zip m).length := by omega
    refine ⟨hmlen, ?_, ?_⟩
    · intro om hom
      exact (betterOrEqual_eq_true_iff om.2 _ _).mp
        (List.countP_eq_length.mp hcount2 om hom)
    · obtain ⟨om, hom, hsb⟩ := List.countP_pos_iff.mp hpos
      exact ⟨om, hom, (strictlyBetter_eq_true_iff om.2 _ _).mp hsb⟩
  · rintro ⟨hmlen, hall, om, hom, hsb⟩
    constructor
    · have : (o.zip m).countP
          (fun om => betterOrEqual om.2 (getVal p1 om.1 om.2) (getVal p2 om.1 om.2))
          = (o.zip m).length :=
        List.countP_eq_length.mpr
          (fun om2 hom2 => (betterOrEqual_eq_true_iff om2.2 _ _).mpr (hall om2 hom2))
      omega
    · exact List.countP_pos_iff.mpr
        ⟨om, hom, (strictlyBetter_eq_true_iff om.2 _ _).mpr hsb⟩

/-- No point is dominated by itself (equality never counts as strictly
better). -/
theorem is_dominated_self (p : Point) (o : List String) (m : List Bool) :
    is_dominated p p o m = false := by
  unfold is_dominated
  have h0 : (o.zip m).countP
      (fun om => strictlyBetter om.2 (getVal p om.1 om.2) (getVal p om.1 om.2)) = 0 :=
    List.countP_eq_zero.mpr
      (fun om hom => by cases hm : om.2 <;> simp [strictlyBetter, hm])
  simp [h0]

/-- Dominance is transitive. -/
theorem is_dominated_trans {p q r : Point} {o : List String} {m : List Bool}
    (h1 : is_dominated p q o m = true) (h2 : is_dominated q r o m = true) :
    is_dominated p r o m = true := by
  rw [is_dominated_eq_true_iff] at h1 h2 ⊢
  obtain ⟨hlen, hall1, -⟩ := h1
  obtain ⟨-, hall2, hex2⟩ := h2
  refine ⟨hlen, ?_, ?_⟩
  · intro om hom
    have a1 := hall1 om hom
    have a2 := hall2 om hom
    cases hm : om.2 <;> rw [hm] at a1 a2 <;>
      simp only [dirLE, if_true, if_false, Bool.false_eq_true] at a1 a2 ⊢ <;>
      first
      | exact le_trans a2 a1
      | exact le_trans a1 a2
  · obtain ⟨om, hom, hlt⟩ := hex2
    have a1 := hall1 om hom
    refine ⟨om, hom, ?_⟩
    cases hm : om.2 <;> rw [hm] at a1 hlt <;>
      simp only [dirLE, dirLT, if_true, if_false, Bool.false_eq_true] at a1 hlt ⊢ <;>
      first
      | exact lt_of_lt_of_le hlt a1
      | exact lt_of_le_of_lt a1 hlt

/-- Every non-empty list of configurations has a member dominated by no
member (dominance is irreflexive and transitive, hence a strict partial
order with maximal elements on finite sets). -/
theorem exists_not_dominated {α : Type} (o : List String) (m : List Bool)
    (e : α → Point) :
    ∀ (l : List α), l ≠ [] →
      ∃ x ∈ l, ∀ y ∈ l, is_dominated (e x) (e y) o m = false := by
  intro l
  induction l with
  | nil => intro h; exact absurd rfl h
  | cons a t ih =>
    intro _hne
    by_cases ht : t = []
    · subst ht
      refine ⟨a, List.mem_singleton.mpr rfl, ?_⟩
      intro y hy
      rw [List.mem_singleton] at hy
      subst hy
      exact is_dominated_self _ o m
    · obtain ⟨x, hxt, hmax⟩ := ih ht
      by_cases hd : is_dominated (e x) (e a) o m = true
      · refine ⟨a, List.mem_cons_self _ _, ?_⟩
        intro y hy
        rcases List.mem_cons.mp hy with heq | hyt
        · subst heq; exact is_dominated_self _ o m
        · cases hb : is_dominated (e a) (e y) o m with
          | false => rfl
          | true =>
            have := is_dominated_trans hd hb
            rw [hmax y hyt] at this
            exact absurd this (by simp)
      · refine ⟨x, List.mem_cons_of_mem _ hxt, ?_⟩
        intro y hy
        rcases List.mem_cons.mp hy with heq | hyt
        · subst heq
          exact Bool.eq_false_iff.mpr (fun hc => hd hc)
        · exact hmax y hyt

end ParetoFrontier

namespace ParetoFrontier

/-- Dropping the `j != i` guard from an `any` over an enumerated list does not
change the result when the predicate is false on the element carrying index
`i`. -/
theorem any_enumFrom_ne {β : Type} (f : β → Bool) (i : ℕ) :
    ∀ (l : List β) (n : ℕ),
      (∀ x : β, (i, x) ∈ l.enumFrom n → f x = false) →
      ((l.enumFrom n).any (fun jx => decide (i ≠ jx.1) && f jx.2)) = l.any f := by
  intro l
  induction l with
  | nil => intro n _; rfl
  | cons a t ih =>
    intro n h
    rw [List.enumFrom_cons, List.any_cons, List.any_cons,
      ih (n + 1) (fun x hx => h x (List.mem_cons_of_mem _ hx))]
    congr 1
    by_cases hin : i = n
    · have hfa : f a = false := h a (by
        rw [List.enumFrom_cons, hin]
        exact List.mem_cons_self _ _)
      simp [hin, hfa]
    · simp [hin]

/-- Filtering an enumerated list by a predicate on the payload and projecting
the payload is filtering the underlying list. -/
theorem filter_snd_enumFrom_map {β γ : Type} (Q : β → Bool) (g : β → γ) :
    ∀ (l : List β) (n : ℕ),
      ((l.enumFrom n).filter (fun jx => Q jx.2)).map (fun jx => g jx.2)
        = (l.filter Q).map g := by
  intro l
  induction l with
  | nil => intro n; rfl
  | cons a t ih =>
    intro n
    rw [List.enumFrom_cons, List.filter_cons, List.filter_cons]
    cases hq : Q a with
    | true => simp only [hq, if_true, List.map_cons, ih (n + 1)]
    | false => simp only [hq, Bool.false_eq_true, if_false, ih (n + 1)]

/-- Any-over-map collapses to any of the composite predicate. -/
theorem any_map_comp {β γ : Type} (l : List β) (h : β → γ) (p : γ → Bool) :
    (l.map h).any p = l.any (fun b => p (h b)) := by
  induction l with
  | nil => rfl
  | cons a t ih => simp only [List.map_cons, List.any_cons, ih]

/-- Because a point never dominates itself, the positional `i != j` guard of
`compute_pareto_frontier` is redundant: a configuration survives iff no
configuration of the input list dominates its point. -/
theorem compute_pareto_frontier_eq_filter {α : Type} (configs : List α)
    (o : List String) (m : List Bool) (e : α → Point) :
    compute_pareto_frontier configs o m e =
      configs.filter (fun c => ! configs.any (fun y => is_dominated (e c) (e y) o m)) := by
  unfold compute_pareto_frontier
  dsimp only
  have hL : configs.zip (configs.map e) = configs.map (fun c => (c, e c)) := by
    have h1 := List.zip_map' (fun c => c) e configs
    simpa using h1
  have hcong : ∀ icp ∈ (configs.zip (configs.map e)).enum,
      (! ((configs.zip (configs.map e)).enum.any
          (fun jcp => decide (icp.1 ≠ jcp.1) && is_dominated icp.2.2 jcp.2.2 o m)))
        = (! (configs.zip (configs.map e)).any
            (fun cp => is_dominated icp.2.2 cp.2 o m)) := by
    rintro ⟨i, cp⟩ hicp
    congr 1
    rw [List.enum_eq_enumFrom] at hicp ⊢
    apply any_enumFrom_ne (fun cp2 => is_dominated cp.2 cp2.2 o m) i
      (configs.zip (configs.map e)) 0
    intro x hx
    rw [← List.enum_eq_enumFrom] at hicp hx
    have h1 := List.mk_mem_enum_iff_getElem?.mp hicp
    have h2 := List.mk_mem_enum_iff_getElem?.mp hx
    rw [h1] at h2
    have hxcp : x = cp := by
      have := Option.some.inj h2
      exact this.symm
    rw [hxcp]
    exact is_dominated_self cp.2 o m
  rw [List.filter_congr hcong]
  rw [List.enum_eq_enumFrom]
  rw [show (fun icp : ℕ × (α × Point) =>
        (! (configs.zip (configs.map e)).any (fun cp => is_dominated icp.2.2 cp.2 o m)))
      = (fun icp : ℕ × (α × Point) =>
        (fun cp0 : α × Point =>
          (! (configs.zip (configs.map e)).any (fun cp => is_dominated cp0.2 cp.2 o m))) icp.2)
      from rfl]
  rw [filter_snd_enumFrom_map
    (fun cp0 : α × Point =>
      (! (configs.zip (configs.map e)).any (fun cp => is_dominated cp0.2 cp.2 o m)))
    (fun cp0 : α × Point => cp0.1) (configs.zip (configs.map e)) 0]
  rw [hL, List.filter_map, List.map_map]
  have hpred : ((fun cp0 : α × Point =>
        (! (configs.map (fun c => (c, e c))).any (fun cp => is_dominated cp0.2 cp.2 o m)))
      ∘ (fun c => (c, e c)))
      = (fun c => ! configs.any (fun y => is_dominated (e c) (e y) o m)) := by
    funext c
    rw [Function.comp_apply, any_map_comp]
  rw [hpred]
  have hmapid : ((fun cp0 : α × Point => cp0.1) ∘ (fun c => (c, e c))) = fun c : α => c := rfl
  rw [hmapid, List.map_id']

/-- Membership in the computed frontier. -/
theorem mem_compute_pareto_frontier {α : Type} {configs : List α}
    {o : List String} {m : List Bool} {e : α → Point} {x : α} :
    x ∈ compute_pareto_frontier configs o m e ↔
      (x ∈ configs ∧ ∀ y ∈ configs, is_dominated (e x) (e y) o m = false) := by
  rw [compute_pareto_frontier_eq_filter, List.mem_filter]
  simp [List.any_eq_false]

end ParetoFrontier

/-- C4: for every point, objective list and minimize-flag list,
`is_dominated(p, p, objectives, minimize)` is `False`: equality on an
objective contributes to better-or-equal but never to strictly-better, so a
point is never dominated by an identical point. -/
theorem is_dominated_no_self_domination (p : Point) (objectives : List String)
    (minimize : List Bool) :
    ParetoFrontier.is_dominated p p objectives minimize = false :=
  ParetoFrontier.is_dominated_self p objectives minimize

/-- C5: a configuration is in the output of `compute_pareto_frontier` iff no
input configuration dominates it ("no other" and "none at all" coincide since
no point dominates itself), and re-running `compute_pareto_frontier` on its
own output with the same objectives and flags returns the output unchanged
(idempotence).  The hypothesis is the `assert` of the source requiring the
objective and flag lists to have equal length. -/
theorem compute_pareto_frontier_idempotent {α : Type} (configs : List α)
    (objectives : List String) (minimize : List Bool) (e : α → Point)
    (hlen : objectives.length = minimize.length) :
    (∀ x, x ∈ ParetoFrontier.compute_pareto_frontier configs objectives minimize e ↔
        (x ∈ configs ∧
          ∀ y ∈ configs, ParetoFrontier.is_dominated (e x) (e y) objectives minimize = false))
    ∧ ParetoFrontier.compute_pareto_frontier
        (ParetoFrontier.compute_pareto_frontier configs objectives minimize e)
        objectives minimize e
      = ParetoFrontier.compute_pareto_frontier configs objectives minimize e := by
  constructor
  · intro x
    exact ParetoFrontier.mem_compute_pareto_frontier
  · rw [ParetoFrontier.compute_pareto_frontier_eq_filter
      (ParetoFrontier.compute_pareto_frontier configs objectives minimize e) objectives minimize e]
    apply List.filter_eq_self.mpr
    intro a ha
    have hmem := ParetoFrontier.mem_compute_pareto_frontier.mp ha
    rw [Bool.not_eq_true', List.any_eq_false]
    intro y hy
    have hy2 := (ParetoFrontier.mem_compute_pareto_frontier.mp hy).1
    simp [hmem.2 y hy2]

/-- C5 witness: Scenario C of the spec, `(1,1)` and `(2,2)` minimizing both
objectives. -/
theorem compute_pareto_frontier_idempotent_witness :
    ParetoFrontier.compute_pareto_frontier
      (ParetoFrontier.compute_pareto_frontier
        [(fun s => if s = "latency" then some 1 else if s = "energy" then some 1 else none : Point),
         (fun s => if s = "latency" then some 2 else if s = "energy" then some 2 else none : Point)]
        ["latency", "energy"] [true, true] (fun p => p))
      ["latency", "energy"] [true, true] (fun p => p)
    = ParetoFrontier.compute_pareto_frontier
        [(fun s => if s = "latency" then some 1 else if s = "energy" then some 1 else none : Point),
         (fun s => if s = "latency" then some 2 else if s = "energy" then some 2 else none : Point)]
        ["latency", "energy"] [true, true] (fun p => p) :=
  (compute_pareto_frontier_idempotent
    [(fun s => if s = "latency" then some 1 else if s = "energy" then some 1 else none : Point),
     (fun s => if s = "latency" then some 2 else if s = "energy" then some 2 else none : Point)]
    ["latency", "energy"] [true, true] (fun p => p) rfl).2

namespace ParetoFrontier

/-- The frontier of a non-empty list is non-empty: a maximal element of the
(irreflexive, transitive) dominance relation survives. -/
theorem compute_pareto_frontier_ne_nil {α : Type} (configs : List α)
    (o : List String) (m : List Bool) (e : α → Point) (h : configs ≠ []) :
    compute_pareto_frontier configs o m e ≠ [] := by
  obtain ⟨x, hx, hall⟩ := exists_not_dominated o m e configs h
  intro hcon
  have hxmem : x ∈ compute_pareto_frontier configs o m e :=
    mem_compute_pareto_frontier.mpr ⟨hx, hall⟩
  rw [hcon] at hxmem
  cases hxmem

/-- Removing a layer that has a member inside `configs` strictly shrinks it. -/
theorem length_filter_not_contains_lt {α : Type} [DecidableEq α]
    (configs F : List α) (x : α) (hxF : x ∈ F) (hxc : x ∈ configs) :
    (configs.filter (fun c => ! F.contains c)).length < configs.length := by
  have hfx : (! F.contains x) = false := by
    simp [List.contains, List.elem_eq_mem, hxF]
  induction configs with
  | nil => cases hxc
  | cons a t ih =>
    rcases List.mem_cons.mp hxc with heq | ht
    · subst heq
      rw [List.filter_cons, hfx]
      simp only [Bool.false_eq_true, if_false]
      exact Nat.lt_succ_of_le (List.length_filter_le _ t)
    · rw [List.filter_cons]
      cases hb : (! F.contains a) with
      | true =>
        simp only [if_true, List.length_cons]
        exact Nat.succ_lt_succ (ih ht)
      | false =>
        simp only [Bool.false_eq_true, if_false]
        exact Nat.lt_succ_of_lt (ih ht)

/-- Layering the empty list yields no layers. -/
theorem rank_by_pareto_layers_nil {α : Type} [DecidableEq α]
    (o : List String) (m : List Bool) (e : α → Point) :
    rank_by_pareto_layers ([] : List α) o m e = [] := by
  rw [rank_by_pareto_layers]
  rfl

/-- One unfolding of the layering loop on a non-empty list: the head layer is
the frontier, the tail is the layering of what remains (the `break` on an
empty frontier is unreachable). -/
theorem rank_by_pareto_layers_cons {α : Type} [DecidableEq α]
    (configs : List α) (o : List String) (m : List Bool) (e : α → Point)
    (h : configs ≠ []) :
    rank_by_pareto_layers configs o m e =
      compute_pareto_frontier configs o m e ::
        rank_by_pareto_layers
          (configs.filter (fun c => ! (compute_pareto_frontier configs o m e).contains c))
          o m e := by
  rw [rank_by_pareto_layers]
  rw [if_neg (by simp [h])]
  dsimp only
  rw [dif_neg (by simp [compute_pareto_frontier_ne_nil configs o m e h])]

/-- The layering partitions its input: the concatenation of the layers is a
permutation of the input, and each element is in exactly one layer. -/
theorem rank_partition_aux {α : Type} [DecidableEq α] (o : List String)
    (m : List Bool) (e : α → Point) :
    ∀ (n : ℕ) (configs : List α), configs.length ≤ n →
      ((rank_by_pareto_layers configs o m e).flatten.Perm configs
      ∧ (∀ x, (rank_by_pareto_layers configs o m e).countP (fun L => L.contains x)
            = if x ∈ configs then 1 else 0)
      ∧ (rank_by_pareto_layers configs o m e = [] ↔ configs = [])) := by
  intro n
  induction n with
  | zero =>
    intro configs hle
    have hc : configs = [] := List.length_eq_zero.mp (Nat.le_zero.mp hle)
    subst hc
    refine ⟨by simp [rank_by_pareto_layers_nil], ?_, by simp [rank_by_pareto_layers_nil]⟩
    intro x
    simp [rank_by_pareto_layers_nil]
  | succ n ih =>
    intro configs hle
    by_cases hc : configs = []
    · subst hc
      refine ⟨by simp [rank_by_pareto_layers_nil], ?_, by simp [rank_by_pareto_layers_nil]⟩
      intro x
      simp [rank_by_pareto_layers_nil]
    · rw [rank_by_pareto_layers_cons configs o m e hc]
      have hFfilter : compute_pareto_frontier configs o m e
          = configs.filter (fun c => ! configs.any (fun y => is_dominated (e c) (e y) o m)) :=
        compute_pareto_frontier_eq_filter configs o m e
      obtain ⟨x0, hx0F⟩ := List.exists_mem_of_ne_nil _
        (compute_pareto_frontier_ne_nil configs o m e hc)
      have hx0c : x0 ∈ configs := (mem_compute_pareto_frontier.mp hx0F).1
      have hlt : (configs.filter
          (fun c => ! (compute_pareto_frontier configs o m e).contains c)).length
          < configs.length :=
        length_filter_not_contains_lt configs _ x0 hx0F hx0c
      have hrle : (configs.filter
          (fun c => ! (compute_pareto_frontier configs o m e).contains c)).length ≤ n := by
        have := hle
        omega
      obtain ⟨ihperm, ihcount, ihnil⟩ := ih _ hrle
      have hcongr : ∀ c ∈ configs,
          (! (compute_pareto_frontier configs o m e).contains c)
            = (! (! configs.any (fun y => is_dominated (e c) (e y) o m))) := by
        intro c hcm
        congr 1
        cases hq : (! configs.any (fun y => is_dominated (e c) (e y) o m)) with
        | true =>
          have hcF : c ∈ compute_pareto_frontier configs o m e := by
            rw [hFfilter]
            exact List.mem_filter.mpr ⟨hcm, hq⟩
          simp [List.contains, List.elem_eq_mem, hcF]
        | false =>
          have hcF : c ∉ compute_pareto_frontier configs o m e := by
            rw [hFfilter]
            intro hcon
            have hT : (! configs.any (fun y => is_dominated (e c) (e y) o m)) = true :=
              (List.mem_filter.mp hcon).2
            rw [hq] at hT
            cases hT
          simp [List.contains, List.elem_eq_mem, hcF]
      have hrest2 : configs.filter
            (fun c => ! (compute_pareto_frontier configs o m e).contains c)
          = configs.filter
            (fun c => ! (! configs.any (fun y => is_dominated (e c) (e y) o m))) :=
        List.filter_congr hcongr
      have hsplit : (compute_pareto_frontier configs o m e ++
            configs.filter
              (fun c => ! (compute_pareto_frontier configs o m e).contains c)).Perm configs := by
        rw [hrest2, hFfilter]
        exact List.filter_append_perm _ configs
      refine ⟨?_, ?_, ?_⟩
      · rw [List.flatten_cons]
        exact (List.Perm.append_left _ ihperm).trans hsplit
      · intro x
        rw [List.countP_cons]
        by_cases hx : x ∈ configs
        · cases hq : (! configs.any (fun y => is_dominated (e x) (e y) o m)) with
          | true =>
            have hxF : x ∈ compute_pareto_frontier configs o m e := by
              rw [hFfilter]
              exact List.mem_filter.mpr ⟨hx, hq⟩
            have hxrest : x ∉ configs.filter
                (fun c => ! (compute_pareto_frontier configs o m e).contains c) := by
              rw [hrest2]
              intro hcon
              have hT : (! (! configs.any (fun y => is_dominated (e x) (e y) o m))) = true :=
                (List.mem_filter.mp hcon).2
              rw [hq] at hT
              cases hT
            rw [ihcount x, if_neg hxrest, if_pos hx]
            simp [List.contains, List.elem_eq_mem, hxF]
          | false =>
            have hxF : x ∉ compute_pareto_frontier configs o m e := by
              rw [hFfilter]
              intro hcon
              have hT : (! configs.any (fun y => is_dominated (e x) (e y) o m)) = true :=
                (List.mem_filter.mp hcon).2
              rw [hq] at hT
              cases hT
            have hxrest : x ∈ configs.filter
                (fun c => ! (compute_pareto_frontier configs o m e).contains c) := by
              rw [hrest2]
              exact List.mem_filter.mpr ⟨hx, by rw [hq]; rfl⟩
            rw [ihcount x, if_pos hxrest, if_pos hx]
            simp [List.contains, List.elem_eq_mem, hxF]
        · have hxF : x ∉ compute_pareto_frontier configs o m e := fun hcon =>
            hx (mem_compute_pareto_frontier.mp hcon).1
          have hxrest : x ∉ configs.filter
              (fun c => ! (compute_pareto_frontier configs o m e).contains c) := fun hcon =>
            hx (List.mem_filter.mp hcon).1
          rw [ihcount x, if_neg hxrest, if_neg hx]
          simp [List.contains, List.elem_eq_mem, hxF]
      · exact ⟨fun hcon => absurd hcon (List.cons_ne_nil _ _), fun hcon => absurd hcon hc⟩

end ParetoFrontier

/-- C6: `rank_by_pareto_layers` terminates on every finite list (it is a total
function in this embedding) and partitions its input: the layers concatenate
to a permutation of the input, every input configuration lies in exactly one
layer, the layering is empty only for the empty input, and on a non-empty
input the head layer is the Pareto frontier of the input while the tail is
the layering of the remaining configurations.  The hypothesis is the `assert`
of the source requiring equal objective/flag list lengths. -/
theorem rank_by_pareto_layers_partition {α : Type} [DecidableEq α]
    (configs : List α) (objectives : List String) (minimize : List Bool)
    (e : α → Point) (hlen : objectives.length = minimize.length) :
    ((ParetoFrontier.rank_by_pareto_layers configs objectives minimize e).flatten.Perm configs)
    ∧ (∀ x, (ParetoFrontier.rank_by_pareto_layers configs objectives minimize e).countP
          (fun L => L.contains x) = if x ∈ configs then 1 else 0)
    ∧ (ParetoFrontier.rank_by_pareto_layers configs objectives minimize e = [] ↔ configs = [])
    ∧ (configs ≠ [] →
        ParetoFrontier.rank_by_pareto_layers configs objectives minimize e =
          ParetoFrontier.compute_pareto_frontier configs objectives minimize e ::
            ParetoFrontier.rank_by_pareto_layers
              (configs.filter
                (fun c => ! (ParetoFrontier.compute_pareto_frontier
                    configs objectives minimize e).contains c))
              objectives minimize e) := by
  obtain ⟨h1, h2, h3⟩ :=
    ParetoFrontier.rank_partition_aux objectives minimize e configs.length configs le_rfl
  exact ⟨h1, h2, h3,
    fun hne => ParetoFrontier.rank_by_pareto_layers_cons configs objectives minimize e hne⟩

/-- C6 witness: two one-objective configurations, minimizing. -/
theorem rank_by_pareto_layers_partition_witness :
    ((ParetoFrontier.rank_by_pareto_layers [(1 : ℚ), 2] ["x"] [true]
        (fun q => fun s => if s = "x" then some q else none)).flatten.Perm [(1 : ℚ), 2]) :=
  (rank_by_pareto_layers_partition [(1 : ℚ), 2] ["x"] [true]
    (fun q => fun s => if s = "x" then some q else none) rfl).1

namespace ConstraintBasedDSE

/-- `processConfig` always reports the configuration it was given. -/
theorem processConfig_config {κ Stats SignalMap : Type}
    (constraints : List STLSpecification) (sim : κ → Except String Stats)
    (extract_signals : Stats → Except String SignalMap)
    (evalSpec : STLSpecification → SignalMap → Except String ℚ)
    (config_name : κ → String) (config : κ) :
    (processConfig constraints sim extract_signals evalSpec config_name config).config
      = config := by
  unfold processConfig
  cases h : stepConfig constraints sim extract_signals evalSpec config with
  | ok v => cases v; rfl
  | error e => rfl

/-- A failing step yields exactly the failure sentinel with the captured
error text. -/
theorem processConfig_error_eq {κ Stats SignalMap : Type}
    (constraints : List STLSpecification) (sim : κ → Except String Stats)
    (extract_signals : Stats → Except String SignalMap)
    (evalSpec : STLSpecification → SignalMap → Except String ℚ)
    (config_name : κ → String) (config : κ) (err : String)
    (herr : stepConfig constraints sim extract_signals evalSpec config = .error err) :
    processConfig constraints sim extract_signals evalSpec config_name config
      = { config := config, config_name := config_name config, stats := none
        , stl_results := none, min_robustness := ⊥, avg_robustness := none
        , satisfies_all := false, num_violations := none, error := some err } := by
  unfold processConfig
  rw [herr]

/-- The configurations reported by a batch exploration are a permutation of
the input configurations: exactly one result per input configuration. -/
theorem explore_map_config_perm {κ Stats SignalMap : Type}
    (constraints : List STLSpecification) (sim : κ → Except String Stats)
    (extract_signals : Stats → Except String SignalMap)
    (evalSpec : STLSpecification → SignalMap → Except String ℚ)
    (config_name : κ → String) (hw_configs : List κ) :
    ((explore_design_space constraints sim extract_signals evalSpec config_name
        hw_configs).map (fun r => r.config)).Perm hw_configs := by
  have h1 : (explore_design_space constraints sim extract_signals evalSpec config_name
        hw_configs).Perm
      (hw_configs.map (processConfig constraints sim extract_signals evalSpec config_name)) :=
    List.mergeSort_perm _ _
  have h2 := h1.map (fun r => r.config)
  rw [List.map_map] at h2
  have h4 : ((fun r : DSEResult κ Stats => r.config)
      ∘ processConfig constraints sim extract_signals evalSpec config_name)
      = fun c : κ => c :=
    funext fun c =>
      processConfig_config constraints sim extract_signals evalSpec config_name c
  rw [h4, List.map_id'] at h2
  exact h2

/-- With an empty constraint list, every step fails (either in the simulator
or at the monitor constructor assert). -/
theorem stepConfig_empty_constraints_error {κ Stats SignalMap : Type}
    (sim : κ → Except String Stats)
    (extract_signals : Stats → Except String SignalMap)
    (evalSpec : STLSpecification → SignalMap → Except String ℚ) (config : κ) :
    ∃ err, stepConfig ([] : List STLSpecification) sim extract_signals evalSpec config
      = .error err := by
  cases hs : sim config with
  | error e =>
    refine ⟨e, ?_⟩
    unfold stepConfig
    rw [hs]
    rfl
  | ok st =>
    refine ⟨"At least one specification must be provided", ?_⟩
    unfold stepConfig
    rw [hs]
    rfl

end ConstraintBasedDSE

/-- C1: `explore_design_space` returns exactly one result per input
configuration even when the simulation or monitor evaluation of some
configuration raises: the failing configuration's result is the sentinel with
`min_robustness = -∞`, `satisfies_all = false` and the captured error text,
the remaining configurations are still processed (the result list is a
permutation of one result per configuration), and — the engine being a total
function — no exception escapes the batch call. -/
theorem explore_design_space_partial_failure {κ Stats SignalMap : Type}
    (constraints : List STLSpecification) (sim : κ → Except String Stats)
    (extract_signals : Stats → Except String SignalMap)
    (evalSpec : STLSpecification → SignalMap → Except String ℚ)
    (config_name : κ → String) (hw_configs : List κ) :
    ((ConstraintBasedDSE.explore_design_space constraints sim extract_signals evalSpec
        config_name hw_configs).map (fun r => r.config)).Perm hw_configs
    ∧ ∀ (config : κ) (err : String),
        ConstraintBasedDSE.stepConfig constraints sim extract_signals evalSpec config
          = .error err →
        ConstraintBasedDSE.processConfig constraints sim extract_signals evalSpec
            config_name config
          = { config := config, config_name := config_name config, stats := none
            , stl_results := none, min_robustness := ⊥, avg_robustness := none
            , satisfies_all := false, num_violations := none, error := some err } :=
  ⟨ConstraintBasedDSE.explore_map_config_perm constraints sim extract_signals evalSpec
      config_name hw_configs,
   fun config err herr =>
     ConstraintBasedDSE.processConfig_error_eq constraints sim extract_signals evalSpec
       config_name config err herr⟩

/-- C1 witness: a simulator that raises on its only configuration. -/
theorem explore_design_space_partial_failure_witness :
    ConstraintBasedDSE.processConfig ([] : List STLSpecification)
        (fun _ : Unit => (Except.error "boom" : Except String Unit))
        (fun s : Unit => Except.ok s) (fun _ _ => Except.ok (0 : ℚ)) (fun _ => "cfg") ()
      = { config := (), config_name := "cfg", stats := none, stl_results := none
        , min_robustness := ⊥, avg_robustness := none, satisfies_all := false
        , num_violations := none, error := some "boom" } :=
  (explore_design_space_partial_failure ([] : List STLSpecification)
      (fun _ : Unit => (Except.error "boom" : Except String Unit))
      (fun s : Unit => Except.ok s) (fun _ _ => Except.ok (0 : ℚ)) (fun _ => "cfg")
      [()]).2 () "boom" rfl

/-- C2 counterexample: with an empty constraint list and a simulator that
succeeds, the single result carries `min_robustness = -∞` (not `0`) and
`satisfies_all = false` (not `true`): the monitor constructor's non-emptiness
assert raises before the aggregation step, so the claimed degenerate policy is
never reached by `explore_design_space`. -/
theorem explore_design_space_empty_constraints_cex :
    ((ConstraintBasedDSE.explore_design_space ([] : List STLSpecification)
        simOkUnit extractIdUnit evalSpecZero nameCfg
        [()]).map (fun r => (r.min_robustness, r.satisfies_all)))
      = [((⊥ : WithBot ℚ), false)]
    ∧ (⊥ : WithBot ℚ) ≠ ((0 : ℚ) : WithBot ℚ) := by
  constructor
  · unfold ConstraintBasedDSE.explore_design_space
    rw [show List.map
        (ConstraintBasedDSE.processConfig ([] : List STLSpecification) simOkUnit
          extractIdUnit evalSpecZero nameCfg) [()] = [sentinelUnit] from by decide]
    rw [List.mergeSort_singleton]
    decide
  · simp

/-- C2 amended: when the DSE engine's constraint list is empty, the
`BaseSTLMonitor` constructor assertion fails for every configuration — even
successfully simulated ones — so every result is the failure sentinel
(`min_robustness = -∞`, `satisfies_all = false`, an error text present), one
per input configuration; the `0`-if-empty aggregation branch is unreachable
through `explore_design_space`. -/
theorem explore_design_space_empty_constraints_sentinel {κ Stats SignalMap : Type}
    (sim : κ → Except String Stats)
    (extract_signals : Stats → Except String SignalMap)
    (evalSpec : STLSpecification → SignalMap → Except String ℚ)
    (config_name : κ → String) (hw_configs : List κ) :
    ((ConstraintBasedDSE.explore_design_space ([] : List STLSpecification) sim
        extract_signals evalSpec config_name hw_configs).map (fun r => r.config)).Perm
      hw_configs
    ∧ ∀ r ∈ ConstraintBasedDSE.explore_design_space ([] : List STLSpecification) sim
        extract_signals evalSpec config_name hw_configs,
        r.min_robustness = ⊥ ∧ r.satisfies_all = false ∧ r.error.isSome = true := by
  constructor
  · exact ConstraintBasedDSE.explore_map_config_perm [] sim extract_signals evalSpec
      config_name hw_configs
  · intro r hr
    unfold ConstraintBasedDSE.explore_design_space at hr
    rw [List.mem_mergeSort] at hr
    obtain ⟨c, -, rfl⟩ := List.mem_map.mp hr
    obtain ⟨err, herr⟩ :=
      ConstraintBasedDSE.stepConfig_empty_constraints_error sim extract_signals evalSpec c
    rw [ConstraintBasedDSE.processConfig_error_eq [] sim extract_signals evalSpec
      config_name c err herr]
    exact ⟨rfl, rfl, rfl⟩

/-- C2 amended witness: one successfully simulated configuration under an
empty constraint list. -/
theorem explore_design_space_empty_constraints_sentinel_witness :
    sentinelUnit.min_robustness = ⊥ ∧ sentinelUnit.satisfies_all = false ∧
    sentinelUnit.error.isSome = true :=
  (explore_design_space_empty_constraints_sentinel
      simOkUnit extractIdUnit evalSpecZero nameCfg [()]).2 sentinelUnit (by
    unfold ConstraintBasedDSE.explore_design_space
    rw [show List.map
        (ConstraintBasedDSE.processConfig ([] : List STLSpecification) simOkUnit
          extractIdUnit evalSpecZero nameCfg) [()] = [sentinelUnit] from by decide]
    rw [List.mergeSort_singleton]
    exact List.mem_singleton.mpr rfl)

/-- C7: ranking by `min_robustness` in the default descending direction is a
permutation of the input with non-increasing `min_robustness`, stable on ties
(filtering the output by any key value equals filtering the input by it); the
DSE engine's post-processing sort is this very ranking applied to the
unsorted per-configuration results. -/
theorem rank_by_min_robustness_desc_stable {κ Stats SignalMap : Type}
    (results : List (DSEResult κ Stats))
    (constraints : List STLSpecification) (sim : κ → Except String Stats)
    (extract_signals : Stats → Except String SignalMap)
    (evalSpec : STLSpecification → SignalMap → Except String ℚ)
    (config_name : κ → String) (hw_configs : List κ) :
    (RobustnessRanker.rank_by_min_robustness results false).Perm results
    ∧ (RobustnessRanker.rank_by_min_robustness results false).Pairwise
        (fun a b => b.min_robustness ≤ a.min_robustness)
    ∧ (∀ q : WithBot ℚ,
        (RobustnessRanker.rank_by_min_robustness results false).filter
            (fun r => decide (r.min_robustness = q))
          = results.filter (fun r => decide (r.min_robustness = q)))
    ∧ ConstraintBasedDSE.explore_design_space constraints sim extract_signals evalSpec
        config_name hw_configs
      = RobustnessRanker.rank_by_min_robustness
          (hw_configs.map (ConstraintBasedDSE.processConfig constraints sim
            extract_signals evalSpec config_name)) false := by
  have hr : RobustnessRanker.rank_by_min_robustness results false
      = results.mergeSort
          (fun a b => decide (b.min_robustness ≤ a.min_robustness)) := rfl
  have htrans : ∀ (a b c : DSEResult κ Stats),
      decide (b.min_robustness ≤ a.min_robustness) = true →
      decide (c.min_robustness ≤ b.min_robustness) = true →
      decide (c.min_robustness ≤ a.min_robustness) = true :=
    fun a b c hab hbc =>
      decide_eq_true (le_trans (of_decide_eq_true hbc) (of_decide_eq_true hab))
  have htotal : ∀ (a b : DSEResult κ Stats),
      (decide (b.min_robustness ≤ a.min_robustness)
        || decide (a.min_robustness ≤ b.min_robustness)) = true := by
    intro a b
    rcases le_total b.min_robustness a.min_robustness with h | h <;> simp [h]
  refine ⟨?_, ?_, ?_, rfl⟩
  · rw [hr]
    exact List.mergeSort_perm results _
  · rw [hr]
    have hpw := List.sorted_mergeSort htrans htotal results
    exact hpw.imp (fun h => of_decide_eq_true h)
  · intro q
    rw [hr]
    have hsubl : List.Sublist (results.filter (fun r => decide (r.min_robustness = q)))
        results :=
      List.filter_sublist results
    have hpair : (results.filter (fun r => decide (r.min_robustness = q))).Pairwise
        (fun a b => decide (b.min_robustness ≤ a.min_robustness) = true) := by
      apply List.pairwise_of_forall_mem_list
      intro a ha b hb
      have ha2 : a.min_robustness = q :=
        of_decide_eq_true (List.mem_filter.mp ha).2
      have hb2 : b.min_robustness = q :=
        of_decide_eq_true (List.mem_filter.mp hb).2
      exact decide_eq_true (by rw [ha2, hb2])
    have hsub2 : List.Sublist (results.filter (fun r => decide (r.min_robustness = q)))
        (results.mergeSort (fun a b => decide (b.min_robustness ≤ a.min_robustness))) :=
      List.sublist_mergeSort htrans htotal hpair hsubl
    have hself : (results.filter (fun r => decide (r.min_robustness = q))).filter
          (fun r => decide (r.min_robustness = q))
        = results.filter (fun r => decide (r.min_robustness = q)) :=
      List.filter_eq_self.mpr (fun a ha => (List.mem_filter.mp ha).2)
    have hsub3 := hsub2.filter (fun r => decide (r.min_robustness = q))
    rw [hself] at hsub3
    have hlen : (results.filter (fun r => decide (r.min_robustness = q))).length
        = ((results.mergeSort
            (fun a b => decide (b.min_robustness ≤ a.min_robustness))).filter
              (fun r => decide (r.min_robustness = q))).length := by
      rw [← List.countP_eq_length_filter, ← List.countP_eq_length_filter]
      exact (((List.mergeSort_perm results _).countP_eq _)).symm
    exact (hsub3.eq_of_length hlen).symm

end TransInferSim
